import Mathlib

/-!
Verification development for the devplexer supervision engine.

This file gives a shallow embedding, in Lean, of the core of the program:
the log capture ring buffer (`src/logging.rs`), the termination escalator
(`src/processes.rs`), the death monitor (`src/apps.rs`), the supervisor
state and event loop (`src/main.rs`), the shutdown sequencer
(`src/main.rs`), and the configuration loader (`src/config.rs`).

Conventions of the embedding:
- machine bytes are `Nat`, pids are `Nat`;
- wall-clock time in the escalator is discrete, one tick = 100 ms (the
  granularity of every sleep in the source), so the 2000 ms stage-0 window
  is 20 ticks and each 3000 ms stage-1 window is 30 ticks;
- OS process observability is an oracle `env : Nat → Bool` giving, for
  each tick, whether `sysinfo` can still see the target process; the
  `System` snapshot that the source refreshes explicitly is threaded as a
  `Bool` that is only updated where the source calls `refresh_processes`
  (or creates the `System`);
- side effects (tmux commands, signals, joins) are reified as trace
  actions so that ordering claims become statements about lists.
-/

namespace Devplexer

/-! ## Log capture buffer (`LogBuffer::write_data`, src/logging.rs) -/

/-- Embedding of `LogBuffer::write_data`.  The `VecDeque<u8>` is a
`List Nat` whose head is the oldest byte; `drain(0..n)` is `List.drop n`
and `write_all` appends at the back. -/
def write_data (buf data : List Nat) : List Nat :=
  if data.length > 512 then
    data.drop (data.length - 512)
  else if buf.length + data.length > 512 then
    buf.drop (buf.length + data.length - 512) ++ data
  else
    buf ++ data

/-- A whole sequence of `write_data` calls starting from the empty buffer
(`LogBuffer::new`). -/
def writeAll (chunks : List (List Nat)) : List Nat :=
  chunks.foldl write_data []

theorem write_data_length_le (buf data : List Nat) (h : buf.length ≤ 512) :
    (write_data buf data).length ≤ 512 := by
  unfold write_data
  split_ifs with h1 h2 <;> simp <;> omega

theorem isSuffix_append_append {α : Type} {l₁ l₂ : List α} (zs : List α)
    (h : l₁ <:+ l₂) : l₁ ++ zs <:+ l₂ ++ zs := by
  obtain ⟨t, rfl⟩ := h
  exact ⟨t, (List.append_assoc t l₁ zs).symm⟩

theorem write_data_suffix (buf data F : List Nat) (h : buf <:+ F) :
    write_data buf data <:+ F ++ data := by
  unfold write_data
  split_ifs with h1 h2
  · exact (List.drop_suffix _ _).trans (List.suffix_append F data)
  · exact isSuffix_append_append data ((List.drop_suffix _ _).trans h)
  · exact isSuffix_append_append data h

theorem writeAll_go (chunks : List (List Nat)) :
    ∀ buf F, buf.length ≤ 512 → buf <:+ F →
      (chunks.foldl write_data buf).length ≤ 512 ∧
        chunks.foldl write_data buf <:+ F ++ chunks.flatten := by
  induction chunks with
  | nil =>
    intro buf F h1 h2
    simpa using ⟨h1, h2⟩
  | cons c cs ih =>
    intro buf F h1 h2
    have := ih (write_data buf c) (F ++ c)
      (write_data_length_le _ _ h1) (write_data_suffix _ _ _ h2)
    simpa [List.append_assoc] using this

/-- Claim C3: `write_data` keeps exactly the last 512 bytes of an
oversized chunk, drops exactly the overflow from the front when the
buffer would overflow, plain-appends otherwise; and over any sequence of
writes the buffer is at most 512 bytes and is a suffix, in order, of the
concatenation of everything ever written. -/
theorem c3_log_buffer_ring_policy :
    (∀ buf data : List Nat, data.length > 512 →
      (write_data buf data).length = 512 ∧ write_data buf data <:+ data) ∧
    (∀ buf data : List Nat, data.length ≤ 512 →
      buf.length + data.length > 512 →
      write_data buf data = buf.drop (buf.length + data.length - 512) ++ data) ∧
    (∀ buf data : List Nat, data.length ≤ 512 → buf.length + data.length ≤ 512 →
      write_data buf data = buf ++ data) ∧
    (∀ chunks : List (List Nat),
      (writeAll chunks).length ≤ 512 ∧ writeAll chunks <:+ chunks.flatten) := by
  refine ⟨?_, ?_, ?_, ?_⟩
  · intro buf data h
    constructor
    · unfold write_data
      rw [if_pos h]
      simp
      omega
    · unfold write_data
      rw [if_pos h]
      exact List.drop_suffix _ _
  · intro buf data h1 h2
    unfold write_data
    rw [if_neg (by omega), if_pos h2]
  · intro buf data h1 h2
    unfold write_data
    rw [if_neg (by omega), if_neg (by omega)]
  · intro chunks
    simpa using writeAll_go chunks [] [] (by simp) (by simp)

/-- Witness for C3 at concrete inputs: an oversized 600-byte chunk leaves
512 bytes, and a 500-byte buffer plus a 50-byte chunk drops exactly 38
bytes from the front. -/
theorem c3_log_buffer_ring_policy_witness :
    (write_data [] (List.replicate 600 3)).length = 512 ∧
      write_data (List.replicate 500 1) (List.replicate 50 2) =
        (List.replicate 500 1).drop 38 ++ List.replicate 50 2 := by
  constructor
  · exact (c3_log_buffer_ring_policy.1 [] (List.replicate 600 3)
      (by simp only [List.length_replicate]; omega)).1
  · have h := c3_log_buffer_ring_policy.2.1 (List.replicate 500 1)
      (List.replicate 50 2) (by simp only [List.length_replicate]; omega)
      (by simp only [List.length_replicate]; omega)
    simpa only [List.length_replicate] using h

/-! ## Events and program records (`src/apps.rs`, `src/tmux.rs`) -/

/-- Embedding of `config::ProgramSpec`; paths are strings. -/
structure ProgramSpec where
  working_directory : String
  command : String
  name : String
  deps : List String
deriving DecidableEq

/-- Embedding of `tmux::RunningTmuxProgram`. -/
structure RunningTmuxProgram where
  command : String
  session_name : String
  tmux_pid : Nat
  program_pid : Nat
deriving DecidableEq

/-- Embedding of `tmux::RunningProgram`. -/
structure RunningProgram where
  spec : ProgramSpec
  program : RunningTmuxProgram
deriving DecidableEq

/-- Embedding of `apps::AppStatus`. -/
inductive AppStatus where
  | Started
  | Running (pid : Nat)
  | Dead (pid : Nat)
deriving DecidableEq

/-- Embedding of `apps::AppEvent`; an `ExitStatus` is an `Option Int`
wrapped in the event's own `Option` exactly as the source wraps
`Option<ExitStatus>`, flattened here to `Option Int` (`none` = no status
obtainable). -/
inductive AppEvent where
  | ReceiveErr
  | IgnoredEvent
  | QuitKeyEvent
  | LogEvent (data : List Nat)
  | ProcessEnded (app_name session_name : String) (tmux_pid program_pid : Nat)
      (status : Option Int)
deriving DecidableEq

/-! ## Death monitor (`apps::wait_for_term`) -/

/-- Embedding of `apps::wait_for_term`.  The OS is abstracted by `found`
(whether `System::new_all().process(pid)` sees the process when the
monitor starts) and `waitResult` (what `process.wait()` eventually
returns).  The returned list is the sequence of events the spawned thread
sends on the channel. -/
def wait_for_term (found : Bool) (waitResult : Option Int)
    (rp : RunningProgram) : List AppEvent :=
  if found then
    [AppEvent.ProcessEnded rp.spec.name rp.program.session_name
      rp.program.tmux_pid rp.program.program_pid waitResult]
  else
    [AppEvent.ProcessEnded rp.spec.name rp.program.session_name
      rp.program.tmux_pid rp.program.program_pid none]

/-- Claim C7: a death monitor emits exactly one `ProcessEnded` event,
always carrying the program's identity; it carries the wait's exit status
when the pid was observable at start, and `none` (instead of failing)
when the pid was already gone. -/
theorem c7_death_monitor_single_event (found : Bool) (waitResult : Option Int)
    (rp : RunningProgram) :
    (wait_for_term found waitResult rp).length = 1 ∧
      wait_for_term found waitResult rp =
        [AppEvent.ProcessEnded rp.spec.name rp.program.session_name
          rp.program.tmux_pid rp.program.program_pid
          (if found then waitResult else none)] := by
  cases found <;> simp [wait_for_term]

/-! ## Input poller classification (`main::start_event_loop`) -/

/-- Embedding of `crossterm::event::KeyCode` as far as the source
inspects it: a character key or anything else. -/
inductive KeyCode where
  | char (c : Char)
  | other (n : Nat)
deriving DecidableEq

/-- A raw terminal event: a key event (the source only reads its
`code`) or any non-key event. -/
inductive TermEvent where
  | key (code : KeyCode)
  | nonKey (n : Nat)
deriving DecidableEq

/-- Embedding of the classification done by one successful poll in
`main::start_event_loop`: the result of `event::read()` (`Except` for
`Result`) is turned into the `AppEvent` sent on the channel. -/
def classify_input (r : Except Unit TermEvent) : AppEvent :=
  match r with
  | .error _ => AppEvent.ReceiveErr
  | .ok (.key kc) =>
    if kc = KeyCode.char 'q' then AppEvent.QuitKeyEvent else AppEvent.IgnoredEvent
  | .ok (.nonKey _) => AppEvent.IgnoredEvent

/-- The help line rendered by `DisplayStatus::render`. -/
def help_line : String := "Q - Quit"

/-- Claim C10: only the lowercase character key 'q' produces
`QuitKeyEvent`; every other key — including uppercase 'Q', despite the
rendered help line reading "Q - Quit" — and every non-key event produces
`IgnoredEvent`, and a failed read produces `ReceiveErr`. -/
theorem c10_quit_key_lowercase_only :
    classify_input (.ok (.key (KeyCode.char 'q'))) = AppEvent.QuitKeyEvent ∧
    (∀ kc : KeyCode, kc ≠ KeyCode.char 'q' →
      classify_input (.ok (.key kc)) = AppEvent.IgnoredEvent) ∧
    classify_input (.ok (.key (KeyCode.char 'Q'))) = AppEvent.IgnoredEvent ∧
    (∀ n : Nat, classify_input (.ok (.nonKey n)) = AppEvent.IgnoredEvent) ∧
    (∀ u : Unit, classify_input (.error u) = AppEvent.ReceiveErr) ∧
    help_line = "Q - Quit" := by
  refine ⟨rfl, ?_, rfl, fun _ => rfl, fun _ => rfl, rfl⟩
  intro kc h
  simp [classify_input, h]

/-- Witness for C10: the uppercase key 'Z' (≠ 'q') is ignored. -/
theorem c10_quit_key_lowercase_only_witness :
    classify_input (.ok (.key (KeyCode.char 'Z'))) = AppEvent.IgnoredEvent :=
  c10_quit_key_lowercase_only.2.1 (KeyCode.char 'Z') (by decide)

/-! ## Supervisor state (`main::DisplayStatus`) -/

/-- Embedding of `main::DisplayStatus`.  `HashMap`s become functions to
`Option`, thread-handle vectors become counts (only joining matters),
channel/handle `Option`s become presence flags, and a killer handle
records the arguments its `kill_process` thread was spawned with. -/
structure DisplayStatus where
  app_statuses : String → Option AppStatus
  pid_map : Nat → Option String
  outstanding_pids : List Nat
  dead_sessions : List String
  join_handles : Nat
  event_handle : Bool
  event_signal_channel : Bool
  is_quiting : Bool
  killer_procs : Option (List (Nat × Option String))
  tab_adapter : Bool
  logbuffer : List Nat

/-- Embedding of `DisplayStatus::mark_app_started`. -/
def mark_app_started (ds : DisplayStatus) (app_name : String) : DisplayStatus :=
  { ds with app_statuses := fun n =>
      if n = app_name then some AppStatus.Started else ds.app_statuses n }

/-- Embedding of `DisplayStatus::mark_app_running`. -/
def mark_app_running (ds : DisplayStatus) (app_name session_name : String)
    (pid : Nat) : DisplayStatus :=
  { ds with
    outstanding_pids := ds.outstanding_pids ++ [pid],
    app_statuses := fun n =>
      if n = app_name then some (AppStatus.Running pid) else ds.app_statuses n,
    pid_map := fun p => if p = pid then some session_name else ds.pid_map p }

/-- Embedding of `DisplayStatus::mark_app_dead` (`Vec::retain` keeps the
elements different from `pid`). -/
def mark_app_dead (ds : DisplayStatus) (app_name session_name : String)
    (pid : Nat) : DisplayStatus :=
  { ds with
    app_statuses := fun n =>
      if n = app_name then some (AppStatus.Dead pid) else ds.app_statuses n,
    outstanding_pids := ds.outstanding_pids.filter (fun f => f ≠ pid),
    dead_sessions := ds.dead_sessions ++ [session_name] }

/-- Embedding of `DisplayStatus::execute_quit`: on the first quit, set
the flag and spawn one killer per outstanding pid (each handle records
the pid and the session name looked up in `pid_map`). -/
def execute_quit (ds : DisplayStatus) : DisplayStatus :=
  if ds.is_quiting then ds
  else
    { ds with
      is_quiting := true,
      killer_procs := some (ds.outstanding_pids.map (fun p => (p, ds.pid_map p))) }

/-- Embedding of `DisplayStatus::add_log_entry`. -/
def add_log_entry (ds : DisplayStatus) (data : List Nat) : DisplayStatus :=
  { ds with logbuffer := write_data ds.logbuffer data }

/-- One iteration of the event `match` in `main` (rendering has no state
effect and is omitted). -/
def step (ds : DisplayStatus) (e : AppEvent) : DisplayStatus :=
  match e with
  | .ProcessEnded s s_name _t_pid p_pid _st => mark_app_dead ds s s_name p_pid
  | .QuitKeyEvent => execute_quit ds
  | .LogEvent ld => add_log_entry ds ld
  | _ => ds

/-- Embedding of `main::check_for_message`: `none` when no pid is
outstanding, otherwise the received message, degrading a channel receive
error (`Except.error`) to `ReceiveErr`. -/
def check_for_message (outstanding : List Nat) (recv : Except Unit AppEvent) :
    Option AppEvent :=
  if outstanding.isEmpty then none
  else
    match recv with
    | .ok m => some m
    | .error _ => some AppEvent.ReceiveErr

/-- The `while let Some(evt) = check_for_message(..)` loop of `main`,
with the channel abstracted as the list of successive `recv` outcomes. -/
def runLoop (ds : DisplayStatus) : List (Except Unit AppEvent) → DisplayStatus
  | [] => ds
  | r :: rest =>
    match check_for_message ds.outstanding_pids r with
    | none => ds
    | some e => runLoop (step ds e) rest

/-- Claim C4: `check_for_message` yields no event exactly when the
outstanding set is empty (so the loop never blocks on the channel then),
the supervisor loop exits immediately — falling through to the shutdown
sequencer — whenever outstanding is empty, and while outstanding is
non-empty it always blocks and obtains some event to process. -/
theorem c4_loop_blocks_only_while_outstanding :
    (∀ (out : List Nat) (r : Except Unit AppEvent),
      check_for_message out r = none ↔ out = []) ∧
    (∀ (out : List Nat) (r : Except Unit AppEvent), out ≠ [] →
      ∃ e, check_for_message out r = some e) ∧
    (∀ (ds : DisplayStatus) (rs : List (Except Unit AppEvent)),
      ds.outstanding_pids = [] → runLoop ds rs = ds) ∧
    (∀ (ds : DisplayStatus) (r : Except Unit AppEvent)
      (rs : List (Except Unit AppEvent)) (e : AppEvent),
      check_for_message ds.outstanding_pids r = some e →
      runLoop ds (r :: rs) = runLoop (step ds e) rs) := by
  refine ⟨?_, ?_, ?_, ?_⟩
  · intro out r
    cases r <;> simp [check_for_message, List.isEmpty_iff]
  · intro out r h
    cases r with
    | error u =>
      exact ⟨AppEvent.ReceiveErr, by simp [check_for_message, List.isEmpty_iff, h]⟩
    | ok m => exact ⟨m, by simp [check_for_message, List.isEmpty_iff, h]⟩
  · intro ds rs h
    cases rs with
    | nil => rfl
    | cons r rest => simp [runLoop, check_for_message, h]
  · intro ds r rs e h
    simp [runLoop, h]

/-- A concrete supervisor state used to witness the loop claims. -/
def dsQuiet : DisplayStatus :=
  { app_statuses := fun _ => none
    pid_map := fun _ => none
    outstanding_pids := []
    dead_sessions := []
    join_handles := 0
    event_handle := false
    event_signal_channel := false
    is_quiting := false
    killer_procs := none
    tab_adapter := false
    logbuffer := [] }

/-- A concrete supervisor state with one outstanding pid. -/
def dsOne : DisplayStatus :=
  { dsQuiet with
    outstanding_pids := [5]
    pid_map := fun p => if p = 5 then some "ns-web" else none }

/-- Witness for C4: with no outstanding pid the loop consumes nothing
even though an event is pending. -/
theorem c4_loop_blocks_only_while_outstanding_witness :
    runLoop dsQuiet [Except.ok AppEvent.QuitKeyEvent] = dsQuiet :=
  c4_loop_blocks_only_while_outstanding.2.2.1 dsQuiet
    [Except.ok AppEvent.QuitKeyEvent] rfl

/-- Claim C5: outstanding pids change only through `mark_app_running`
(which appends the new pid) and through the `ProcessEnded` event of a
pid itself (whose handling removes exactly that pid); every other event
leaves the set untouched, distinctness is preserved, and under
distinctness the removal removes the pid exactly once. -/
theorem c5_outstanding_removed_only_by_own_death :
    (∀ (ds : DisplayStatus) (n : String),
      (mark_app_started ds n).outstanding_pids = ds.outstanding_pids) ∧
    (∀ (ds : DisplayStatus) (n sn : String) (p : Nat),
      (mark_app_running ds n sn p).outstanding_pids =
        ds.outstanding_pids ++ [p]) ∧
    (∀ (ds : DisplayStatus) (n sn : String) (p : Nat),
      p ∉ ds.outstanding_pids → ds.outstanding_pids.Nodup →
      (mark_app_running ds n sn p).outstanding_pids.Nodup) ∧
    (∀ (ds : DisplayStatus) (e : AppEvent),
      (∀ n sn tp pp st, e ≠ AppEvent.ProcessEnded n sn tp pp st) →
      (step ds e).outstanding_pids = ds.outstanding_pids) ∧
    (∀ (ds : DisplayStatus) (n sn : String) (tp pp : Nat) (st : Option Int),
      (step ds (AppEvent.ProcessEnded n sn tp pp st)).outstanding_pids =
        ds.outstanding_pids.filter (fun q => q ≠ pp)) ∧
    (∀ (ds : DisplayStatus) (e : AppEvent), ds.outstanding_pids.Nodup →
      (step ds e).outstanding_pids.Nodup) ∧
    (∀ (ds : DisplayStatus) (n sn : String) (tp pp : Nat) (st : Option Int),
      ds.outstanding_pids.Nodup → pp ∈ ds.outstanding_pids →
      (step ds (AppEvent.ProcessEnded n sn tp pp st)).outstanding_pids.length + 1 =
          ds.outstanding_pids.length ∧
        pp ∉ (step ds (AppEvent.ProcessEnded n sn tp pp st)).outstanding_pids) := by
  refine ⟨fun ds n => rfl, fun ds n sn p => rfl, ?_, ?_, ?_, ?_, ?_⟩
  · intro ds n sn p hp hn
    simp [mark_app_running, List.nodup_append, hn, List.disjoint_singleton, hp]
  · intro ds e h
    cases e with
    | ProcessEnded n sn tp pp st => exact absurd rfl (h n sn tp pp st)
    | QuitKeyEvent =>
      simp only [step, execute_quit]
      split <;> rfl
    | ReceiveErr => rfl
    | IgnoredEvent => rfl
    | LogEvent ld => rfl
  · intro ds n sn tp pp st
    rfl
  · intro ds e hn
    cases e with
    | ProcessEnded n sn tp pp st =>
      exact List.Nodup.filter _ hn
    | QuitKeyEvent =>
      simp only [step, execute_quit]
      split <;> exact hn
    | ReceiveErr => exact hn
    | IgnoredEvent => exact hn
    | LogEvent ld => exact hn
  · intro ds n sn tp pp st hn hm
    constructor
    · show (ds.outstanding_pids.filter (fun q => q ≠ pp)).length + 1 =
        ds.outstanding_pids.length
      have he : ds.outstanding_pids.filter (fun q => q ≠ pp) =
          ds.outstanding_pids.erase pp := by
        rw [List.Nodup.erase_eq_filter hn pp]
        apply List.filter_congr
        intro a _
        by_cases hb : a = pp <;> simp [hb, bne]
      rw [he, List.length_erase_of_mem hm]
      have : 0 < ds.outstanding_pids.length := List.length_pos.mpr
        (List.ne_nil_of_mem hm)
      omega
    · show pp ∉ ds.outstanding_pids.filter (fun q => q ≠ pp)
      simp

/-- Witness for C5: killing pid 5 in a one-pid state removes it exactly
once. -/
theorem c5_outstanding_removed_only_by_own_death_witness :
    (step dsOne (AppEvent.ProcessEnded "web" "ns-web" 4 5 none)).outstanding_pids.length
        + 1 = dsOne.outstanding_pids.length ∧
      5 ∉ (step dsOne (AppEvent.ProcessEnded "web" "ns-web" 4 5 none)).outstanding_pids :=
  c5_outstanding_removed_only_by_own_death.2.2.2.2.2.2 dsOne "web" "ns-web" 4 5 none
    (by decide) (by decide)

/-- Claim C6: the quitting flag is monotonic — the first `QuitKeyEvent`
sets it and records exactly one escalator handle per outstanding pid
(with that pid's session name), touching nothing else; any further
`execute_quit` while the flag is set is a no-op, and no event ever
clears the flag. -/
theorem c6_quit_flag_monotonic :
    (∀ ds : DisplayStatus, ds.is_quiting = false →
      (execute_quit ds).is_quiting = true ∧
      (execute_quit ds).killer_procs =
        some (ds.outstanding_pids.map (fun p => (p, ds.pid_map p))) ∧
      (execute_quit ds).outstanding_pids = ds.outstanding_pids ∧
      (execute_quit ds).app_statuses = ds.app_statuses ∧
      (execute_quit ds).dead_sessions = ds.dead_sessions ∧
      (execute_quit ds).logbuffer = ds.logbuffer) ∧
    (∀ ds : DisplayStatus, ds.is_quiting = true → execute_quit ds = ds) ∧
    (∀ (ds : DisplayStatus) (e : AppEvent), ds.is_quiting = true →
      (step ds e).is_quiting = true) := by
  refine ⟨?_, ?_, ?_⟩
  · intro ds h
    simp [execute_quit, h]
  · intro ds h
    simp [execute_quit, h]
  · intro ds e h
    cases e with
    | ProcessEnded n sn tp pp st => exact h
    | QuitKeyEvent => simp [step, execute_quit, h]
    | ReceiveErr => exact h
    | IgnoredEvent => exact h
    | LogEvent ld => exact h

/-- Witness for C6: the first quit on a fresh one-pid state spawns one
escalator for pid 5 with its session, and a second quit changes
nothing. -/
theorem c6_quit_flag_monotonic_witness :
    ((execute_quit dsOne).is_quiting = true ∧
      (execute_quit dsOne).killer_procs = some [(5, some "ns-web")]) ∧
      execute_quit (execute_quit dsOne) = execute_quit dsOne := by
  have h1 := c6_quit_flag_monotonic.1 dsOne rfl
  have h2 := c6_quit_flag_monotonic.2.1 (execute_quit dsOne) h1.1
  exact ⟨⟨h1.1, by rw [h1.2.1]; rfl⟩, h2⟩

/-! ## Termination escalator (`processes::kill_process`,
`processes::kill_with_timeout`) -/

/-- The advisory/unconditional signal vocabulary of the escalator
(`sysinfo::Signal` as used by the source). -/
inductive Sig where
  | interrupt
  | term
  | kill
deriving DecidableEq

/-- One observable action of the escalator.  `sleep` is one 100 ms
`thread::sleep`; `sessionInterrupt` is `tmux::send_interrupt`;
`deliver` is `Process::kill_with`; `killWait` is the single
`kill_with_and_wait(Signal::Kill)` that blocks until the OS confirms
death. -/
inductive Act where
  | sessionInterrupt (session : String)
  | sleep
  | deliver (s : Sig)
  | killWait
deriving DecidableEq

/-- A trace action stamped with the tick (1 tick = 100 ms) at which it
happens. -/
abbrev TAct := Nat × Act

/-- The poll-for-absence loop shared by both stages: starting at tick
`t` with refreshed snapshot `snap`, sleep 100 ms, refresh, and re-check,
for at most `fuel` sleeps (`fuel` = timeout / 100 ms; the source's
`timeup` flag becomes true exactly when `fuel` sleeps have happened).
Returns (final tick, final snapshot, timeout flag at exit). -/
def pollLoop (env : Nat → Bool) : Nat → Nat → Bool → Nat × Bool × Bool
  | 0, t, snap => (t, snap, true)
  | fuel + 1, t, snap =>
    if snap then pollLoop env fuel (t + 1) (env (t + 1)) else (t, snap, false)

/-- The timed sleep actions emitted while the tick advances from `t` to
`u`. -/
def sleepsBetween (t u : Nat) : List TAct :=
  (List.range' t (u - t)).map (fun v => (v, Act.sleep))

/-- The `for s in sigs` loop of `processes::kill_with_timeout`, plus the
final force-kill: before delivering each signal the snapshot is
re-checked (return if the process vanished); after delivery the process
table is refreshed and absence is polled for up to `limit` sleeps; a
non-timeout exit returns immediately; after the list is exhausted with a
timeout, `Signal::Kill` is delivered with a synchronous wait — but only
if the process is still in the snapshot. -/
def kill_with_timeout_go (env : Nat → Bool) (limit : Nat) :
    List Sig → Nat → Bool → Bool → List TAct
  | [], t, snap, timeup =>
    if timeup then (if snap then [(t, Act.killWait)] else []) else []
  | s :: rest, t, snap, _tu =>
    if snap then
      let r := pollLoop env limit t (env t)
      let tr := (t, Act.deliver s) :: sleepsBetween t r.1
      if r.2.2 then tr ++ kill_with_timeout_go env limit rest r.1 r.2.1 r.2.2
      else tr
    else []

/-- Embedding of `processes::kill_with_timeout` (entry liveness check,
then the signal loop). -/
def kill_with_timeout (env : Nat → Bool) (limit : Nat) (sigs : List Sig)
    (t : Nat) (snap : Bool) : List TAct :=
  if snap then kill_with_timeout_go env limit sigs t snap false else []

/-- Embedding of `processes::kill_process`: create the `System` snapshot
at tick 0; if the pid is observable and a session name is known, send the
tmux interrupt and poll absence for up to 20 sleeps (2000 ms); then, if
the pid is still in the snapshot, run `kill_with_timeout` with
`[Interrupt, Term]` and a 30-sleep (3000 ms) window per signal. -/
def kill_process (env : Nat → Bool) (session_name : Option String) : List TAct :=
  let snap0 := env 0
  if snap0 then
    match session_name with
    | some sn =>
      let r := pollLoop env 20 0 snap0
      let tr0 := (0, Act.sessionInterrupt sn) :: sleepsBetween 0 r.1
      if r.2.1 then
        tr0 ++ kill_with_timeout env 30 [Sig.interrupt, Sig.term] r.1 r.2.1
      else tr0
    | none => kill_with_timeout env 30 [Sig.interrupt, Sig.term] 0 snap0
  else []

theorem pollLoop_alive (env : Nat → Bool) (fuel : Nat) :
    ∀ t, (∀ u, u ≤ t + fuel → env u = true) →
      pollLoop env fuel t true = (t + fuel, true, true) := by
  induction fuel with
  | zero => intro t _; rfl
  | succ n ih =>
    intro t h
    have he : env (t + 1) = true := h (t + 1) (by omega)
    have hr : ∀ u, u ≤ t + 1 + n → env u = true := fun u hu => h u (by omega)
    calc pollLoop env (n + 1) t true = pollLoop env n (t + 1) (env (t + 1)) := by
          rw [pollLoop, if_pos rfl]
      _ = (t + 1 + n, true, true) := by rw [he]; exact ih (t + 1) hr
      _ = (t + (n + 1), true, true) := by
          have harith : t + 1 + n = t + (n + 1) := by omega
          rw [harith]

/-- Claim C1: on a process that stays observable through every advisory
stage and with a known session name, the escalator's timed trace is
exactly: tmux interrupt at tick 0, 20 absence polls (2000 ms at 100 ms
each), `Interrupt` at tick 20 followed by 30 polls (3000 ms), `Term` at
tick 50 followed by 30 polls (3000 ms), and a single synchronous
`Kill`-and-wait at tick 80, with nothing after it. -/
theorem c1_escalator_stage_order (env : Nat → Bool) (sn : String)
    (h : ∀ t, t ≤ 80 → env t = true) :
    kill_process env (some sn) =
      [(0, Act.sessionInterrupt sn)] ++ sleepsBetween 0 20 ++
        [(20, Act.deliver Sig.interrupt)] ++ sleepsBetween 20 50 ++
        [(50, Act.deliver Sig.term)] ++ sleepsBetween 50 80 ++
        [(80, Act.killWait)] := by
  have h0 : env 0 = true := h 0 (by omega)
  have p1 : pollLoop env 20 0 true = (20, true, true) :=
    pollLoop_alive env 20 0 (fun u hu => h u (by omega))
  have p2 : pollLoop env 30 20 (env 20) = (50, true, true) := by
    rw [h 20 (by omega)]
    exact pollLoop_alive env 30 20 (fun u hu => h u (by omega))
  have p3 : pollLoop env 30 50 (env 50) = (80, true, true) := by
    rw [h 50 (by omega)]
    exact pollLoop_alive env 30 50 (fun u hu => h u (by omega))
  simp [kill_process, kill_with_timeout, kill_with_timeout_go, h0, p1, p2, p3]

/-- Witness for C1: the always-alive environment realises the full
escalation trace. -/
theorem c1_escalator_stage_order_witness :
    kill_process (fun _ => true) (some "web") =
      [(0, Act.sessionInterrupt "web")] ++ sleepsBetween 0 20 ++
        [(20, Act.deliver Sig.interrupt)] ++ sleepsBetween 20 50 ++
        [(50, Act.deliver Sig.term)] ++ sleepsBetween 50 80 ++
        [(80, Act.killWait)] :=
  c1_escalator_stage_order (fun _ => true) "web" (fun _ _ => rfl)

theorem pollLoop_snapshot (env : Nat → Bool) (fuel : Nat) :
    ∀ t snap, snap = env t →
      (pollLoop env fuel t snap).2.1 = env (pollLoop env fuel t snap).1 := by
  induction fuel with
  | zero => intro t snap h; exact h
  | succ n ih =>
    intro t snap h
    by_cases hs : snap = true
    · subst hs
      rw [pollLoop, if_pos rfl]
      exact ih (t + 1) (env (t + 1)) rfl
    · have hs' : snap = false := by
        cases snap
        · rfl
        · exact absurd rfl hs
      subst hs'
      rw [pollLoop]
      simp only [Bool.false_eq_true, if_false]
      exact h

theorem mem_sleepsBetween {t u v : Nat} {a : Act}
    (h : (v, a) ∈ sleepsBetween t u) : a = Act.sleep := by
  unfold sleepsBetween at h
  obtain ⟨w, _, hw⟩ := List.mem_map.mp h
  exact (Prod.mk.injEq _ _ _ _ ▸ hw).2.symm ▸ rfl

theorem kill_with_timeout_go_alive (env : Nat → Bool) (limit : Nat) :
    ∀ (sigs : List Sig) (t : Nat) (snap timeup : Bool), snap = env t →
      ∀ (u : Nat) (a : Act),
        (u, a) ∈ kill_with_timeout_go env limit sigs t snap timeup →
        a ≠ Act.sleep → env u = true := by
  intro sigs
  induction sigs with
  | nil =>
    intro t snap timeup hsnap u a hm _
    unfold kill_with_timeout_go at hm
    by_cases ht : timeup = true
    · rw [if_pos ht] at hm
      by_cases hs : snap = true
      · rw [if_pos hs] at hm
        have := List.mem_singleton.mp hm
        have hu : u = t := (Prod.mk.injEq _ _ _ _ ▸ this).1
        rw [hu, ← hsnap, hs]
      · simp only [hs, if_false] at hm
        exact absurd hm (List.not_mem_nil _)
    · simp only [ht, if_false] at hm
      exact absurd hm (List.not_mem_nil _)
  | cons s rest ih =>
    intro t snap timeup hsnap u a hm hns
    unfold kill_with_timeout_go at hm
    by_cases hs : snap = true
    · rw [if_pos hs] at hm
      simp only [] at hm
      set r := pollLoop env limit t (env t) with hr
      have hinv : r.2.1 = env r.1 := pollLoop_snapshot env limit t (env t) rfl
      by_cases htu : r.2.2 = true
      · rw [if_pos htu] at hm
        rcases List.mem_cons.mp hm with hhead | htail
        · have hu : u = t := (Prod.mk.injEq _ _ _ _ ▸ hhead).1
          rw [hu, ← hsnap, hs]
        · rcases List.mem_append.mp htail with hsl | hrest
          · exact absurd (mem_sleepsBetween hsl) hns
          · exact ih r.1 r.2.1 r.2.2 hinv u a hrest hns
      · simp only [htu, if_false] at hm
        rcases List.mem_cons.mp hm with hhead | hsl
        · have hu : u = t := (Prod.mk.injEq _ _ _ _ ▸ hhead).1
          rw [hu, ← hsnap, hs]
        · exact absurd (mem_sleepsBetween hsl) hns
    · simp only [hs, if_false] at hm
      exact absurd hm (List.not_mem_nil _)

/-- Claim C2: every forceful action of the escalator — the session
interrupt, each advisory signal, and the final kill — is taken only at a
tick where the target is still observable: liveness is re-checked before
anything is delivered, so a process that has disappeared (at the start,
inside a poll window, or between stages) receives nothing further. -/
theorem c2_no_signal_after_death (env : Nat → Bool) (sn : Option String)
    (t : Nat) (a : Act) (hm : (t, a) ∈ kill_process env sn)
    (hns : a ≠ Act.sleep) : env t = true := by
  unfold kill_process at hm
  by_cases h0 : env 0 = true
  · rw [if_pos h0] at hm
    cases sn with
    | none =>
      unfold kill_with_timeout at hm
      rw [if_pos h0] at hm
      exact kill_with_timeout_go_alive env 30 [Sig.interrupt, Sig.term] 0
        (env 0) false rfl t a hm hns
    | some name =>
      simp only [] at hm
      set r := pollLoop env 20 0 (env 0) with hr
      have hinv : r.2.1 = env r.1 := pollLoop_snapshot env 20 0 (env 0) rfl
      by_cases hs1 : r.2.1 = true
      · rw [if_pos hs1] at hm
        rcases List.mem_append.mp hm with hfirst | hrest
        · rcases List.mem_cons.mp hfirst with hhead | hsl
          · have hu : t = 0 := (Prod.mk.injEq _ _ _ _ ▸ hhead).1
            rw [hu]; exact h0
          · exact absurd (mem_sleepsBetween hsl) hns
        · unfold kill_with_timeout at hrest
          rw [if_pos hs1] at hrest
          exact kill_with_timeout_go_alive env 30 [Sig.interrupt, Sig.term]
            r.1 r.2.1 false hinv t a hrest hns
      · simp only [hs1, if_false] at hm
        rcases List.mem_cons.mp hm with hhead | hsl
        · have hu : t = 0 := (Prod.mk.injEq _ _ _ _ ▸ hhead).1
          rw [hu]; exact h0
        · exact absurd (mem_sleepsBetween hsl) hns
  · simp only [h0, if_false] at hm
    exact absurd hm (List.not_mem_nil _)

/-- Witness for C2: with a process alive only at tick 0 and no session
name, the single delivered `Interrupt` happens at tick 0, where the
process was indeed observable. -/
theorem c2_no_signal_after_death_witness :
    (fun u => decide (u = 0)) 0 = true :=
  c2_no_signal_after_death (fun u => decide (u = 0)) none 0
    (Act.deliver Sig.interrupt) (by decide) (by decide)

/-! ## Shutdown sequencer (`DisplayStatus::finish_shutdown`) -/

/-- One observable action of the shutdown sequence. -/
inductive ShutAct where
  | killSession (session : String)
  | closeTab (session : String)
  | afterAllClosed
  | joinMonitor (i : Nat)
  | signalStop
  | joinPoller
  | joinKiller (i : Nat)
deriving DecidableEq

/-- Embedding of `DisplayStatus::shutdown_session`: destroy the tmux
session, then (if an adapter is present) close its tab. -/
def shutdown_session_acts (adapter : Bool) (sn : String) : List ShutAct :=
  ShutAct.killSession sn :: (if adapter then [ShutAct.closeTab sn] else [])

/-- The `for sn in dead_sessions` loop at the top of `finish_shutdown`. -/
def sessions_shutdown_acts (adapter : Bool) : List String → List ShutAct
  | [] => []
  | sn :: rest => shutdown_session_acts adapter sn ++ sessions_shutdown_acts adapter rest

/-- Embedding of `DisplayStatus::finish_running_with_adapter`. -/
def finish_running_with_adapter_acts (adapter : Bool) : List ShutAct :=
  if adapter then [ShutAct.afterAllClosed] else []

/-- Embedding of `DisplayStatus::wait_for_handles`: the death-monitor
handles are popped from the back, so they are joined in reverse
enqueue order. -/
def wait_for_handles_acts (n : Nat) : List ShutAct :=
  (List.range n).reverse.map ShutAct.joinMonitor

/-- Embedding of `DisplayStatus::shut_down_events`: signal the input
poller's stop channel (if created), join the poller thread (if created),
then pop-and-join every recorded termination escalator. -/
def shut_down_events_acts (hasChan hasHandle : Bool) (killers : Option Nat) :
    List ShutAct :=
  (if hasChan then [ShutAct.signalStop] else []) ++
    (if hasHandle then [ShutAct.joinPoller] else []) ++
    (match killers with
     | some k => (List.range k).reverse.map ShutAct.joinKiller
     | none => [])

/-- Embedding of `DisplayStatus::finish_shutdown`, composing the four
phases in the source's order. -/
def finish_shutdown_acts (ds : DisplayStatus) : List ShutAct :=
  sessions_shutdown_acts ds.tab_adapter ds.dead_sessions ++
    finish_running_with_adapter_acts ds.tab_adapter ++
    wait_for_handles_acts ds.join_handles ++
    shut_down_events_acts ds.event_signal_channel ds.event_handle
      (ds.killer_procs.map List.length)

/-- The phase index of a shutdown action: session teardown (0), adapter
finalisation (1), monitor joins (2), poller stop signal (3), poller join
(4), escalator joins (5). -/
def shutPhase : ShutAct → Nat
  | .killSession _ => 0
  | .closeTab _ => 0
  | .afterAllClosed => 1
  | .joinMonitor _ => 2
  | .signalStop => 3
  | .joinPoller => 4
  | .joinKiller _ => 5

theorem mem_ite_singleton {α : Type} {b : Bool} {x y : α}
    (h : x ∈ if b = true then [y] else []) : x = y := by
  cases b
  · simp at h
  · simpa using h

theorem pairwise_map_le_append {f : ShutAct → Nat} {c : Nat}
    {l₁ l₂ : List ShutAct}
    (h₁ : ∀ a ∈ l₁, f a ≤ c) (h₂ : ∀ a ∈ l₂, c ≤ f a)
    (p₁ : (l₁.map f).Pairwise (· ≤ ·)) (p₂ : (l₂.map f).Pairwise (· ≤ ·)) :
    ((l₁ ++ l₂).map f).Pairwise (· ≤ ·) := by
  rw [List.map_append]
  refine List.pairwise_append.mpr ⟨p₁, p₂, ?_⟩
  intro x hx y hy
  obtain ⟨a, ha, rfl⟩ := List.mem_map.mp hx
  obtain ⟨b, hb, rfl⟩ := List.mem_map.mp hy
  exact (h₁ a ha).trans (h₂ b hb)

theorem pairwise_map_const {f : ShutAct → Nat} {c : Nat} {l : List ShutAct}
    (h : ∀ a ∈ l, f a = c) : (l.map f).Pairwise (· ≤ ·) := by
  induction l with
  | nil => simp
  | cons a t ih =>
    rw [List.map_cons]
    refine List.Pairwise.cons ?_ (ih fun x hx => h x (List.mem_cons_of_mem a hx))
    intro b hb
    obtain ⟨x, hx, rfl⟩ := List.mem_map.mp hb
    rw [h a (List.mem_cons_self a t), h x (List.mem_cons_of_mem a hx)]

theorem sessions_acts_phase (adapter : Bool) (deads : List String) :
    ∀ a ∈ sessions_shutdown_acts adapter deads, shutPhase a = 0 := by
  induction deads with
  | nil =>
    intro a ha
    simp [sessions_shutdown_acts] at ha
  | cons d rest ih =>
    intro a ha
    rcases List.mem_append.mp ha with hh | ht
    · unfold shutdown_session_acts at hh
      rcases List.mem_cons.mp hh with h1 | h2
      · subst h1; rfl
      · rw [mem_ite_singleton h2]; rfl
    · exact ih a ht

theorem mem_finish_running_acts {adapter : Bool} {a : ShutAct}
    (h : a ∈ finish_running_with_adapter_acts adapter) :
    a = ShutAct.afterAllClosed :=
  mem_ite_singleton h

theorem mem_wait_for_handles_acts {n : Nat} {a : ShutAct}
    (h : a ∈ wait_for_handles_acts n) : ∃ i, a = ShutAct.joinMonitor i := by
  obtain ⟨i, _, rfl⟩ := List.mem_map.mp h
  exact ⟨i, rfl⟩

theorem mem_events_acts {hasChan hasHandle : Bool} {killers : Option Nat}
    {a : ShutAct} (h : a ∈ shut_down_events_acts hasChan hasHandle killers) :
    3 ≤ shutPhase a ∧ shutPhase a ≤ 5 := by
  unfold shut_down_events_acts at h
  rcases List.mem_append.mp h with h12 | h3
  · rcases List.mem_append.mp h12 with h1 | h2
    · rw [mem_ite_singleton h1]
      exact ⟨by decide, by decide⟩
    · rw [mem_ite_singleton h2]
      exact ⟨by decide, by decide⟩
  · cases killers with
    | none => simp at h3
    | some k =>
      obtain ⟨i, _, rfl⟩ := List.mem_map.mp h3
      have h5 : shutPhase (ShutAct.joinKiller i) = 5 := rfl
      rw [h5]
      exact ⟨by omega, by omega⟩

theorem events_acts_pairwise (hasChan hasHandle : Bool) (killers : Option Nat) :
    ((shut_down_events_acts hasChan hasHandle killers).map shutPhase).Pairwise
      (· ≤ ·) := by
  unfold shut_down_events_acts
  rw [List.append_assoc]
  apply pairwise_map_le_append (c := 3)
  · intro a ha
    rw [mem_ite_singleton ha]
    decide
  · intro a ha
    rcases List.mem_append.mp ha with h2 | h3
    · rw [mem_ite_singleton h2]
      decide
    · cases killers with
      | none => simp at h3
      | some k =>
        obtain ⟨i, _, rfl⟩ := List.mem_map.mp h3
        have h5 : shutPhase (ShutAct.joinKiller i) = 5 := rfl
        omega
  · exact pairwise_map_const (c := 3) fun a ha => by
      rw [mem_ite_singleton ha]
      decide
  · apply pairwise_map_le_append (c := 4)
    · intro a ha
      rw [mem_ite_singleton ha]
      decide
    · intro a ha
      cases killers with
      | none => simp at ha
      | some k =>
        obtain ⟨i, _, rfl⟩ := List.mem_map.mp ha
        have h5 : shutPhase (ShutAct.joinKiller i) = 5 := rfl
        omega
    · exact pairwise_map_const (c := 4) fun a ha => by
        rw [mem_ite_singleton ha]
        decide
    · exact pairwise_map_const (c := 5) fun a ha => by
        cases killers with
        | none => simp at ha
        | some k =>
          obtain ⟨i, _, rfl⟩ := List.mem_map.mp ha
          rfl


theorem sessions_acts_decompose (deads : List String) (sn : String)
    (h : sn ∈ deads) :
    ∃ p q, sessions_shutdown_acts true deads =
      p ++ ShutAct.killSession sn :: ShutAct.closeTab sn :: q := by
  induction deads with
  | nil => exact absurd h (List.not_mem_nil sn)
  | cons d rest ih =>
    rcases List.mem_cons.mp h with h1 | h2
    · refine ⟨[], sessions_shutdown_acts true rest, ?_⟩
      rw [h1]
      rfl
    · obtain ⟨p, q, hpq⟩ := ih h2
      refine ⟨shutdown_session_acts true d ++ p, q, ?_⟩
      show shutdown_session_acts true d ++ sessions_shutdown_acts true rest = _
      rw [hpq, List.append_assoc]

/-- Claim C8: the shutdown sequencer's trace is phase-monotone — all
session destruction and tab closing first, then `after_all_closed`, then
every death-monitor join, then the poller stop signal, the poller join,
and the escalator joins — and, with an adapter present, each dead
session's tab close comes immediately after that session's destruction,
so a tab is never closed while its session is alive. -/
theorem c8_shutdown_strict_order (ds : DisplayStatus) :
    ((finish_shutdown_acts ds).map shutPhase).Pairwise (· ≤ ·) ∧
      (∀ sn ∈ ds.dead_sessions, ds.tab_adapter = true →
        ∃ p q, finish_shutdown_acts ds =
          p ++ ShutAct.killSession sn :: ShutAct.closeTab sn :: q) := by
  constructor
  · unfold finish_shutdown_acts
    rw [List.append_assoc, List.append_assoc]
    apply pairwise_map_le_append (c := 1)
    · intro a ha
      rw [sessions_acts_phase ds.tab_adapter ds.dead_sessions a ha]
      omega
    · intro a ha
      rcases List.mem_append.mp ha with h1 | h23
      · rw [mem_finish_running_acts h1]
        decide
      · rcases List.mem_append.mp h23 with h2 | h3
        · obtain ⟨i, rfl⟩ := mem_wait_for_handles_acts h2
          have hp : shutPhase (ShutAct.joinMonitor i) = 2 := rfl
          omega
        · have := (mem_events_acts h3).1
          omega
    · exact pairwise_map_const (c := 0)
        (sessions_acts_phase ds.tab_adapter ds.dead_sessions)
    · apply pairwise_map_le_append (c := 2)
      · intro a ha
        rw [mem_finish_running_acts ha]
        decide
      · intro a ha
        rcases List.mem_append.mp ha with h2 | h3
        · obtain ⟨i, rfl⟩ := mem_wait_for_handles_acts h2
          have hp : shutPhase (ShutAct.joinMonitor i) = 2 := rfl
          omega
        · have := (mem_events_acts h3).1
          omega
      · exact pairwise_map_const (c := 1) fun a ha => by
          rw [mem_finish_running_acts ha]
          decide
      · apply pairwise_map_le_append (c := 3)
        · intro a ha
          obtain ⟨i, rfl⟩ := mem_wait_for_handles_acts ha
          have hp : shutPhase (ShutAct.joinMonitor i) = 2 := rfl
          omega
        · intro a ha
          exact (mem_events_acts ha).1
        · exact pairwise_map_const (c := 2) fun a ha => by
            obtain ⟨i, rfl⟩ := mem_wait_for_handles_acts ha
            rfl
        · exact events_acts_pairwise ds.event_signal_channel ds.event_handle
            (ds.killer_procs.map List.length)
  · intro sn hsn hta
    obtain ⟨p, q, hpq⟩ := sessions_acts_decompose ds.dead_sessions sn hsn
    refine ⟨p, q ++ finish_running_with_adapter_acts ds.tab_adapter ++
      wait_for_handles_acts ds.join_handles ++
      shut_down_events_acts ds.event_signal_channel ds.event_handle
        (ds.killer_procs.map List.length), ?_⟩
    unfold finish_shutdown_acts
    rw [hta, hpq]
    simp [List.append_assoc]


/-- A concrete post-run state used to witness the shutdown ordering. -/
def dsDone : DisplayStatus :=
  { dsQuiet with
    dead_sessions := ["ns-web"]
    join_handles := 1
    event_handle := true
    event_signal_channel := true
    tab_adapter := true
    killer_procs := some [(5, some "ns-web")] }

/-- Witness for C8: in a finished one-program run with an adapter, the
session kill is immediately followed by its tab close. -/
theorem c8_shutdown_strict_order_witness :
    ∃ p q, finish_shutdown_acts dsDone =
      p ++ ShutAct.killSession "ns-web" :: ShutAct.closeTab "ns-web" :: q :=
  (c8_shutdown_strict_order dsDone).2 "ns-web" (by decide) rfl

/-! ## Configuration loading (`config::string_to_config`,
`config::spec_from_hash`) -/

/-- Embedding of `yaml_rust2::Yaml` as far as the source inspects it
(strings, integers, hashes-as-association-lists, arrays, null). -/
inductive Yaml where
  | str (s : String)
  | int (n : Int)
  | hash (entries : List (Yaml × Yaml))
  | arr (items : List Yaml)
  | null

/-- `Yaml::as_str`. -/
def yamlAsStr : Yaml → Option String
  | .str s => some s
  | _ => none

/-- `Yaml::as_hash`. -/
def yamlAsHash : Yaml → Option (List (Yaml × Yaml))
  | .hash entries => some entries
  | _ => none

/-- Lookup of a `Yaml::String` key in a hash (`LinkedHashMap::get` with
a string key: only a string entry with the same characters matches). -/
def hashGet (entries : List (Yaml × Yaml)) (key : String) : Option Yaml :=
  (entries.find? (fun e =>
    match e.1 with
    | .str t => t = key
    | _ => false)).map (fun e => e.2)

/-- `Path::is_absolute` for the string path model. -/
def isAbsolutePath (p : String) : Bool := p.startsWith "/"

/-- `Path::join` for the string path model (also standing in for
`path::absolute` of the joined path, which never fails on the non-empty
paths built here). -/
def joinPath (base p : String) : String := base ++ "/" ++ p

/-- Embedding of `config::InvalidAppSpecError`. -/
inductive InvalidAppSpecError where
  | InvalidNameError (y : Yaml)
  | InvalidSpecStructureError (name : String) (y : Yaml)
  | MissingCommandError (name : String) (y : Yaml)
  | InvalidWorkingDirectoryError (name : String) (y : Yaml)

/-- Embedding of `config::ConfigurationSettingsError`. -/
inductive ConfigurationSettingsError where
  | ConfigurationFileNotFound (s : String)
  | InvalidConfigurationFilePath (s : String)
  | InvalidConfigurationFileContentError (s : String)
  | InvalidConfigurationFileStructureError (y : Yaml)
  | InvalidConfigurationNamespaceError (y : Yaml)
  | InvalidSpecStructuresError (errs : List InvalidAppSpecError)

/-- Embedding of `config::Configuration` (`namespace` is a Lean keyword,
hence `nspace`). -/
structure Configuration where
  nspace : String
  apps : List ProgramSpec

/-- Embedding of `config::spec_from_hash`: one `(name, content)` app
entry becomes a `ProgramSpec` or a single structured error. -/
def spec_from_hash (base_dir : String) (name content : Yaml) :
    Except InvalidAppSpecError ProgramSpec :=
  match yamlAsStr name with
  | none => .error (.InvalidNameError name)
  | some n =>
    match yamlAsHash content with
    | none => .error (.InvalidSpecStructureError n content)
    | some h =>
      match hashGet h "command" with
      | none => .error (.MissingCommandError n content)
      | some commandYaml =>
        match yamlAsStr commandYaml with
        | none => .error (.MissingCommandError n commandYaml)
        | some commandStr =>
          match hashGet h "working_directory" with
          | none =>
            .ok { name := n, command := commandStr,
                  working_directory := base_dir, deps := [] }
          | some pYaml =>
            match yamlAsStr pYaml with
            | none => .error (.InvalidWorkingDirectoryError n pYaml)
            | some pys =>
              if isAbsolutePath pys then
                .ok { name := n, command := commandStr,
                      working_directory := pys, deps := [] }
              else
                .ok { name := n, command := commandStr,
                      working_directory := joinPath base_dir pys, deps := [] }

/-- The `for (k, v) in spec_hash` loop of `string_to_config`: successes
are pushed to `oks`, failures to `fails`, in entry order. -/
def processSpecEntries (base_dir : String) :
    List (Yaml × Yaml) → List ProgramSpec × List InvalidAppSpecError →
      List ProgramSpec × List InvalidAppSpecError
  | [], acc => acc
  | (k, v) :: rest, (oks, fails) =>
    match spec_from_hash base_dir k v with
    | .ok s => processSpecEntries base_dir rest (oks ++ [s], fails)
    | .error e => processSpecEntries base_dir rest (oks, fails ++ [e])

/-- The body of the `for y in yaml` loop of `string_to_config`
(structure checks and namespace update use `?`-style early return,
modelled by `Except`). -/
def processDoc (base_dir : String)
    (acc : String × List ProgramSpec × List InvalidAppSpecError) (y : Yaml) :
    Except ConfigurationSettingsError
      (String × List ProgramSpec × List InvalidAppSpecError) :=
  match yamlAsHash y with
  | none => .error (.InvalidConfigurationFileStructureError y)
  | some fullConfig =>
    let nsStep : Except ConfigurationSettingsError String :=
      match hashGet fullConfig "namespace" with
      | none => .ok acc.1
      | some nsv =>
        match yamlAsStr nsv with
        | none => .error (.InvalidConfigurationNamespaceError nsv)
        | some s => .ok s
    match nsStep with
    | .error e => .error e
    | .ok ns =>
      match hashGet fullConfig "apps" with
      | none => .error (.InvalidConfigurationFileStructureError y)
      | some appSection =>
        match yamlAsHash appSection with
        | none => .error (.InvalidConfigurationFileStructureError appSection)
        | some specHash =>
          let r := processSpecEntries base_dir specHash (acc.2.1, acc.2.2)
          .ok (ns, r.1, r.2)

/-- Embedding of `config::string_to_config` on an already-parsed list of
YAML documents (the `YamlLoader` call itself is external): iterate the
documents accumulating parsed specs and per-entry failures, then fail
with the aggregated `InvalidSpecStructuresError` if any entry was
malformed. -/
def string_to_config (base_dir : String) (yaml : List Yaml) :
    Except ConfigurationSettingsError Configuration :=
  match yaml.foldlM (processDoc base_dir) ("devplexer", [], []) with
  | .error e => .error e
  | .ok acc =>
    if acc.2.2.length > 0 then
      .error (.InvalidSpecStructuresError acc.2.2)
    else
      .ok { nspace := acc.1, apps := acc.2.1 }

/-- The success component of an `Except`. -/
def exceptOk {ε α : Type} : Except ε α → Option α
  | .ok a => some a
  | .error _ => none

/-- The failure component of an `Except`. -/
def exceptErr {ε α : Type} : Except ε α → Option ε
  | .ok _ => none
  | .error e => some e

theorem processSpecEntries_spec (base_dir : String) :
    ∀ (entries : List (Yaml × Yaml)) (oks : List ProgramSpec)
      (fails : List InvalidAppSpecError),
      processSpecEntries base_dir entries (oks, fails) =
        (oks ++ entries.filterMap
            (fun kv => exceptOk (spec_from_hash base_dir kv.1 kv.2)),
         fails ++ entries.filterMap
            (fun kv => exceptErr (spec_from_hash base_dir kv.1 kv.2))) := by
  intro entries
  induction entries with
  | nil => intro oks fails; simp [processSpecEntries]
  | cons kv rest ih =>
    intro oks fails
    obtain ⟨k, v⟩ := kv
    show processSpecEntries base_dir ((k, v) :: rest) (oks, fails) = _
    cases hs : spec_from_hash base_dir k v with
    | ok s =>
      simp only [processSpecEntries, hs, ih]
      simp [List.filterMap_cons, hs, exceptOk, exceptErr]
    | error e =>
      simp only [processSpecEntries, hs, ih]
      simp [List.filterMap_cons, hs, exceptOk, exceptErr]

/-- Claim C9: for a configuration document whose app section is
`entries`, loading aggregates: if any entry is malformed the result is a
single `InvalidSpecStructuresError` listing every malformed entry's
error in order (not just the first), and only if no entry is malformed
does it succeed with all parsed specs. -/
theorem c9_config_errors_aggregated (base_dir : String)
    (entries : List (Yaml × Yaml)) :
    (entries.filterMap
        (fun kv => exceptErr (spec_from_hash base_dir kv.1 kv.2)) ≠ [] →
      string_to_config base_dir [Yaml.hash [(Yaml.str "apps", Yaml.hash entries)]] =
        .error (.InvalidSpecStructuresError
          (entries.filterMap
            (fun kv => exceptErr (spec_from_hash base_dir kv.1 kv.2))))) ∧
    (entries.filterMap
        (fun kv => exceptErr (spec_from_hash base_dir kv.1 kv.2)) = [] →
      string_to_config base_dir [Yaml.hash [(Yaml.str "apps", Yaml.hash entries)]] =
        .ok { nspace := "devplexer",
              apps := entries.filterMap
                (fun kv => exceptOk (spec_from_hash base_dir kv.1 kv.2)) }) := by
  have hfold :
      [Yaml.hash [(Yaml.str "apps", Yaml.hash entries)]].foldlM
          (processDoc base_dir) ("devplexer", ([] : List ProgramSpec),
            ([] : List InvalidAppSpecError)) =
        .ok ("devplexer",
          entries.filterMap
            (fun kv => exceptOk (spec_from_hash base_dir kv.1 kv.2)),
          entries.filterMap
            (fun kv => exceptErr (spec_from_hash base_dir kv.1 kv.2))) := by
    simp [List.foldlM, processDoc, yamlAsHash, hashGet, List.find?,
      processSpecEntries_spec base_dir entries [] [], Except.bind]
  constructor
  · intro h
    have hne : 0 < (entries.filterMap
        (fun kv => exceptErr (spec_from_hash base_dir kv.1 kv.2))).length :=
      List.length_pos.mpr h
    simp only [string_to_config, hfold, gt_iff_lt, hne, if_true]
  · intro h
    simp [string_to_config, hfold, h]

/-- Witness for C9: a document with two malformed app entries (a
non-string name, and an entry whose body is not a hash) yields one
aggregated error listing both. -/
theorem c9_config_errors_aggregated_witness :
    string_to_config "/"
        [Yaml.hash [(Yaml.str "apps",
          Yaml.hash [(Yaml.int 1, Yaml.null), (Yaml.str "a", Yaml.null)])]] =
      .error (.InvalidSpecStructuresError
        [.InvalidNameError (Yaml.int 1),
         .InvalidSpecStructureError "a" Yaml.null]) :=
  (c9_config_errors_aggregated "/"
    [(Yaml.int 1, Yaml.null), (Yaml.str "a", Yaml.null)]).1
    (List.cons_ne_nil _ _)

end Devplexer
